import Mathlib

/-!
# Verification of the block registry and placement engine of a memory allocator

This file gives a shallow embedding of the allocator implemented in the
repository (final implementation; the four entry points `os_malloc`,
`os_free`, `os_calloc`, `os_realloc` and their helpers), and proves or
refutes the frozen claims about it.

Modelling conventions:
* The circular doubly-linked descriptor list with its sentinel head is
  modelled as a plain `List Block` in traversal order (`head.next` first,
  `head.prev` last); the sentinel itself is not an element.
* Pointers are natural-number addresses.  The null pointer is `0`; the heap
  base and the bases of mapped regions are nonzero, so no payload pointer
  is ever `0`.  Pointer identity of list nodes within a single traversal is
  index identity; across an intervening list mutation a node is re-located
  by its address (addresses of live nodes are distinct in every state the C
  program can reach).
* `size_t` arithmetic is `Nat` arithmetic modulo `2 ^ 64` (`cadd`, `csub`,
  `cmul`, `calign`); addresses use plain `Nat` arithmetic.
* `sbrk` and `mmap` are modelled as always succeeding.  `sbrk` takes a
  signed `intptr_t` increment: the code passes `size_t` values, so a request
  below `2 ^ 63` advances the break by that amount while a request of
  `2 ^ 63` or more is a negative increment that moves the break backwards
  (`sbrkMove`); `sbrk` returns the previous break.  `mmap` returns a fresh
  region from a dedicated address space.  `munmap` calls are recorded in
  `unmapLog`.
* Payload bytes (memset / memmove contents) are not modelled; no claim in
  scope concerns payload contents.
* Traversing the list before `head_init` has run is modelled as traversing
  the empty list.
-/

namespace MemAlloc

/-- Embeds `size_t` width: arithmetic wraps modulo `2 ^ 64`. -/
def W : Nat := 2 ^ 64

/-- Wrapping `size_t` addition. -/
def cadd (a b : Nat) : Nat := (a + b) % W

/-- Wrapping `size_t` subtraction (for operands below `W`). -/
def csub (a b : Nat) : Nat := (a + (W - b % W)) % W

/-- Wrapping `size_t` multiplication. -/
def cmul (a b : Nat) : Nat := a * b % W

/-- Embeds `ALIGN(size) = (size + 7) & ~7` in `size_t` arithmetic. -/
def calign (x : Nat) : Nat := cadd x 7 / 8 * 8

/-- The value of a `size_t` reinterpreted as a signed 64-bit `long`. -/
def toSigned (x : Nat) : Int := if x < 2 ^ 63 then (x : Int) else (x : Int) - (W : Int)

/-- Moving the program break by `sbrk(delta)` where the `size_t` value
`delta` is received as a signed `intptr_t`: values below `2 ^ 63` advance
the break, larger values are negative increments and move it backwards. -/
def sbrkMove (brk delta : Nat) : Nat :=
  if delta < 2 ^ 63 then brk + delta else brk - (W - delta)

/-- Embeds `META_BLOCK_SIZE = ALIGN(sizeof(struct block_meta))` = 32 on the target. -/
def META : Nat := 32

/-- Embeds `HEAP_PREALLOC_SIZE = 128 * 1024`. -/
def HEAP_PREALLOC : Nat := 128 * 1024

/-- Embeds `MMAP_THRESHOLD = 128 * 1024`. -/
def MMAP_THRESH : Nat := 128 * 1024

/-- Embeds `getpagesize()` on the target. -/
def PAGESIZE : Nat := 4096

/-- Base address of the program-break heap (nonzero, so payloads are nonzero). -/
def HEAPBASE : Nat := 1048576

/-- Base address of the mmap address space, disjoint from the heap. -/
def MAPBASE : Nat := 2 ^ 44

/-- Block status: `STATUS_FREE`, `STATUS_ALLOC`, `STATUS_MAPPED`. -/
inductive Status where
  | free : Status
  | alloc : Status
  | mapped : Status
deriving DecidableEq, Repr

/-- A block descriptor: its address, payload size and status.  The `prev` /
`next` links of `struct block_meta` are represented by list adjacency. -/
structure Block where
  addr : Nat
  size : Nat
  status : Status
deriving DecidableEq, Repr

/-- Global allocator state: the descriptor list (in traversal order), the
program break, a cursor for fresh mmap addresses, the two lazily set flags,
and a log of the `munmap` calls issued so far. -/
structure AState where
  blocks : List Block
  brk : Nat
  mapCtr : Nat
  headInit : Bool
  prealloc : Bool
  unmapLog : List (Nat × Nat)
deriving DecidableEq, Repr

/-- The state before the first call. -/
def initState : AState :=
  { blocks := [], brk := HEAPBASE, mapCtr := 0,
    headInit := false, prealloc := false, unmapLog := [] }

/-- Embeds `map_block_in_mem`: mmap `META + size` bytes, build a `STATUS_MAPPED`
block there and append it to the list.  Returns the block's address. -/
def mapBlockInMem (size : Nat) (s : AState) : Nat × AState :=
  let requested := cadd META size
  let a := MAPBASE + s.mapCtr
  let b : Block := { addr := a, size := size, status := Status.mapped }
  (a, { s with mapCtr := s.mapCtr + requested, blocks := s.blocks ++ [b] })

/-- Embeds `prealloc_heap_attempt`: on the first heap request, extend the break by
`HEAP_PREALLOC` bytes and install a single free block spanning
`HEAP_PREALLOC - META` payload bytes. -/
def preallocHeapAttempt (s : AState) : AState :=
  if s.prealloc then s
  else
    let b : Block := { addr := s.brk, size := HEAP_PREALLOC - META, status := Status.free }
    { s with brk := sbrkMove s.brk HEAP_PREALLOC, blocks := s.blocks ++ [b], prealloc := true }

/-- Loop body of `find_best_block`: scan with the current index and the best
candidate (index, size) so far; a free block of sufficient size replaces the
candidate only when strictly smaller. -/
def findBestGo (sz : Nat) : List Block → Nat → Option (Nat × Nat) → Option (Nat × Nat)
  | [], _, best => best
  | b :: rest, i, best =>
    let best' :=
      if b.status = Status.free ∧ sz ≤ b.size then
        match best with
        | none => some (i, b.size)
        | some (j, v) => if b.size < v then some (i, b.size) else some (j, v)
      else best
    findBestGo sz rest (i + 1) best'

/-- Embeds `find_best_block` (final version): index of the chosen block, if any;
the comparison size is `ALIGN(size)`. -/
def findBestBlock (size : Nat) (bs : List Block) : Option Nat :=
  (findBestGo (calign size) bs 0 none).map Prod.fst

/-- Loop body of the draft `find_best_block`, which returns as soon as it
sees a free block whose size matches the request exactly. -/
def draftFindBestGo (sz : Nat) : List Block → Nat → Option (Nat × Nat) → Option (Nat × Nat)
  | [], _, best => best
  | b :: rest, i, best =>
    if b.status = Status.free ∧ sz ≤ b.size then
      if b.size = sz then some (i, b.size)
      else
        let best' :=
          match best with
          | none => some (i, b.size)
          | some (j, v) => if b.size < v then some (i, b.size) else some (j, v)
        draftFindBestGo sz rest (i + 1) best'
    else draftFindBestGo sz rest (i + 1) best

/-- Draft `find_best_block` (early return on an exact size match; compares
against the raw request size, which its caller has already aligned). -/
def draftFindBestBlock (size : Nat) (bs : List Block) : Option Nat :=
  (draftFindBestGo size bs 0 none).map Prod.fst

/-- Embeds `split_block_attempt` on the block at index `i`.  No split when the size
matches exactly or when `ALIGN(size) + META + 1 >= block.size`; otherwise the
block shrinks to `ALIGN(size)` and a free trailing block is inserted
immediately after it. -/
def splitBlockAttempt (bs : List Block) (i : Nat) (size : Nat) : List Block :=
  match bs[i]? with
  | none => bs
  | some b =>
    let a := calign size
    if b.size = a then bs
    else if b.size ≤ cadd (cadd a META) 1 then bs
    else
      let nb : Block := { addr := b.addr + META + a,
                          size := csub (csub b.size a) META,
                          status := Status.free }
      bs.take i ++ { b with size := a } :: nb :: bs.drop (i + 1)

/-- Embeds `get_last_on_heap`: the index of the last non-mapped block (walking
backward from the list tail past trailing mapped blocks). -/
def getLastOnHeapIdx : List Block → Option Nat
  | [] => none
  | b :: rest =>
    match getLastOnHeapIdx rest with
    | some j => some (j + 1)
    | none => if b.status = Status.mapped then none else some 0

/-- Embeds `expand_last_block`: grow the last heap block in place via
`sbrk(size - last.size)`.  The difference is computed in `size_t`; `sbrk`
receives it as a signed `intptr_t`, so a wrapped difference of `2 ^ 63` or
more moves the break backwards. -/
def expandLastBlock (size : Nat) (s : AState) : Option Nat × AState :=
  match getLastOnHeapIdx s.blocks with
  | none => (none, s)
  | some i =>
    match s.blocks[i]? with
    | none => (none, s)
    | some b =>
      let delta := csub size b.size
      (some i, { s with brk := sbrkMove s.brk delta,
                        blocks := s.blocks.set i { b with size := cadd b.size delta } })

/-- Loop body of `coalesce_attempt`.  The accumulator holds the current left
free anchor together with the mapped blocks skipped since the anchor was
set (they stay in the list, after the anchor). -/
def coalesceGo : Option (Block × List Block) → List Block → List Block
  | none, [] => []
  | some (c1, pend), [] => c1 :: pend
  | none, b :: rest =>
    match b.status with
    | Status.free => coalesceGo (some (b, [])) rest
    | _ => b :: coalesceGo none rest
  | some (c1, pend), b :: rest =>
    match b.status with
    | Status.alloc => (c1 :: pend) ++ b :: coalesceGo none rest
    | Status.mapped => coalesceGo (some (c1, pend ++ [b])) rest
    | Status.free =>
        coalesceGo (some ({ c1 with size := cadd c1.size (cadd META b.size) }, pend)) rest

/-- Embeds `coalesce_attempt`: one pass merging every run of free blocks (mapped
blocks are skipped without resetting the anchor; allocated blocks reset it). -/
def coalesceAttempt (bs : List Block) : List Block := coalesceGo none bs

/-- Fresh heap block: `sbrk(META + a)` and append a block of size `a`
(status is written by the caller; fresh break memory reads as zero =
`STATUS_FREE`). -/
def freshHeapBlock (a : Nat) (s : AState) : Option Nat × AState :=
  let b : Block := { addr := s.brk, size := a, status := Status.free }
  (some s.blocks.length,
    { s with brk := sbrkMove s.brk (cadd META a), blocks := s.blocks ++ [b] })

/-- Embeds `get_free_heap_block`: preallocate, coalesce, then best-fit (splitting if
worthwhile), else expand the last heap block if free, else a fresh block. -/
def getFreeHeapBlock (size : Nat) (s : AState) : Option Nat × AState :=
  let s1 := preallocHeapAttempt s
  let s2 := { s1 with blocks := coalesceAttempt s1.blocks }
  match findBestBlock (calign size) s2.blocks with
  | some i => (some i, { s2 with blocks := splitBlockAttempt s2.blocks i (calign size) })
  | none =>
    match getLastOnHeapIdx s2.blocks with
    | some li =>
      match s2.blocks[li]? with
      | some lb =>
        if lb.status = Status.free then expandLastBlock (calign size) s2
        else freshHeapBlock (calign size) s2
      | none => freshHeapBlock (calign size) s2
    | none => freshHeapBlock (calign size) s2

/-- Loop body of `search_block_in_list`, carrying the current index. -/
def searchGo (p : Nat) : List Block → Nat → Option Nat
  | [], _ => none
  | b :: rest, i => if b.addr + META = p then some i else searchGo p rest (i + 1)

/-- Embeds `search_block_in_list`: index of the first block whose payload starts at
`p`. -/
def searchBlockInList (p : Nat) (bs : List Block) : Option Nat := searchGo p bs 0

/-- Embeds `delete_mapped_block` on the block at index `i`: unlink it and `munmap`
its whole region of `block.size + META` bytes (recorded in the log). -/
def deleteMappedBlockAt (i : Nat) (s : AState) : AState :=
  match s.blocks[i]? with
  | none => s
  | some b =>
    if b.status = Status.mapped then
      { s with blocks := s.blocks.eraseIdx i,
               unmapLog := s.unmapLog ++ [(b.addr, cadd b.size META)] }
    else s

/-- Embeds `delete_mapped_block` through a pointer that survived an intervening list
mutation: the node is re-located by its address. -/
def deleteMappedByAddr (a : Nat) (s : AState) : AState :=
  match s.blocks.findIdx? (fun b => b.addr = a) with
  | some i => deleteMappedBlockAt i s
  | none => s

/-- Mark the (first) block at address `a` with status `st`; embeds a status
write through a pointer that survived an intervening list mutation. -/
def setStatusByAddr (a : Nat) (st : Status) : List Block → List Block
  | [] => []
  | b :: rest =>
    if b.addr = a then { b with status := st } :: rest
    else b :: setStatusByAddr a st rest

/-- Embeds `os_malloc`. -/
def osMalloc (size : Nat) (s : AState) : Option Nat × AState :=
  if size = 0 then (none, s)
  else
    let s1 := if s.headInit then s else { s with headInit := true }
    let a := calign size
    if cadd a META < MMAP_THRESH then
      match getFreeHeapBlock a s1 with
      | (some i, s2) =>
        match s2.blocks[i]? with
        | some b => (some (b.addr + META),
                     { s2 with blocks := s2.blocks.set i { b with status := Status.alloc } })
        | none => (none, s2)
      | (none, s2) => (none, s2)
    else
      let (ad, s2) := mapBlockInMem a s1
      (some (ad + META), s2)

/-- Embeds `os_free`. -/
def osFree (p : Nat) (s : AState) : AState :=
  if p = 0 then s
  else
    match searchBlockInList p s.blocks with
    | none => s
    | some i =>
      match s.blocks[i]? with
      | none => s
      | some b =>
        match b.status with
        | Status.free => s
        | Status.mapped => deleteMappedBlockAt i s
        | Status.alloc => { s with blocks := s.blocks.set i { b with status := Status.free } }

/-- Embeds `os_calloc` (payload zero-fill not modelled). -/
def osCalloc (nmemb size : Nat) (s : AState) : Option Nat × AState :=
  if nmemb = 0 ∨ size = 0 then (none, s)
  else
    let s1 := if s.headInit then s else { s with headInit := true }
    let a := calign (cmul size nmemb)
    if a < size ∨ a < nmemb then (none, s1)
    else if toSigned (cadd a META) < (PAGESIZE : Int) then
      match getFreeHeapBlock a s1 with
      | (some i, s2) =>
        match s2.blocks[i]? with
        | some b => (some (b.addr + META),
                     { s2 with blocks := s2.blocks.set i { b with status := Status.alloc } })
        | none => (none, s2)
      | (none, s2) => (none, s2)
    else
      let (ad, s2) := mapBlockInMem a s1
      (some (ad + META), s2)

/-- Embeds `shrink_realloc` on the block at index `i` with the aligned new size. -/
def shrinkRealloc (i : Nat) (size : Nat) (s : AState) : Option Nat × AState :=
  match s.blocks[i]? with
  | none => (none, s)
  | some b =>
    if b.status = Status.mapped then
      if MMAP_THRESH ≤ size then
        let (na, s1) := mapBlockInMem size s
        let s2 := deleteMappedByAddr b.addr s1
        (some (na + META), s2)
      else
        match getFreeHeapBlock size s with
        | (some k, s1) =>
          match s1.blocks[k]? with
          | some hb =>
            let s2 := { s1 with blocks := s1.blocks.set k { hb with status := Status.alloc } }
            (some (hb.addr + META), deleteMappedByAddr b.addr s2)
          | none => (none, s1)
        | (none, s1) => (none, s1)
    else
      (some (b.addr + META), { s with blocks := splitBlockAttempt s.blocks i size })

/-- Loop body of `block_coalesce_to_size`: absorb successive free neighbors
of the grown block `b` (skipping mapped blocks, which stay in place) until
the target size is reached or a non-free non-mapped block is hit. -/
def coalesceToSizeGo (b : Block) (size : Nat) (keep : List Block) :
    List Block → Block × List Block
  | [] => (b, keep)
  | x :: rest =>
    match x.status with
    | Status.free =>
      let b' := { b with size := cadd b.size (cadd META x.size) }
      if size ≤ b'.size then (b', keep ++ rest)
      else coalesceToSizeGo b' size keep rest
    | Status.mapped => coalesceToSizeGo b size (keep ++ [x]) rest
    | Status.alloc => (b, keep ++ x :: rest)

/-- Embeds `block_coalesce_to_size` on the block at index `i`. -/
def blockCoalesceToSize (bs : List Block) (i : Nat) (size : Nat) : List Block :=
  match bs[i]? with
  | none => bs
  | some b =>
    let r := coalesceToSizeGo b size [] (bs.drop (i + 1))
    bs.take i ++ r.1 :: r.2

/-- The forward-coalescing tail of `extend_realloc` (block not mapped, below
the threshold, not the last heap block). -/
def extendCoalescePath (i : Nat) (size : Nat) (s : AState) (b : Block) :
    Option Nat × AState :=
  let blocks1 := blockCoalesceToSize s.blocks i size
  match blocks1[i]? with
  | none => (none, { s with blocks := blocks1 })
  | some b1 =>
    if size ≤ b1.size then
      (some (b.addr + META), { s with blocks := splitBlockAttempt blocks1 i size })
    else
      match getFreeHeapBlock size { s with blocks := blocks1 } with
      | (some k, s2) =>
        match s2.blocks[k]? with
        | some hb =>
          let s3 := { s2 with blocks := s2.blocks.set k { hb with status := Status.alloc } }
          (some (hb.addr + META),
           { s3 with blocks := setStatusByAddr b.addr Status.free s3.blocks })
        | none => (none, s2)
      | (none, s2) => (none, s2)

/-- Embeds `extend_realloc` on the block at index `i` with the aligned new size. -/
def extendRealloc (i : Nat) (size : Nat) (s : AState) : Option Nat × AState :=
  match s.blocks[i]? with
  | none => (none, s)
  | some b =>
    if b.status = Status.mapped then
      let (na, s1) := mapBlockInMem size s
      (some (na + META), deleteMappedByAddr b.addr s1)
    else if MMAP_THRESH ≤ size then
      let (na, s1) := mapBlockInMem size s
      match s1.blocks[i]? with
      | some b1 => (some (na + META),
                    { s1 with blocks := s1.blocks.set i { b1 with status := Status.free } })
      | none => (none, s1)
    else
      match getLastOnHeapIdx s.blocks with
      | some li =>
        if i = li then
          match expandLastBlock size s with
          | (some j, s1) =>
            match s1.blocks[j]? with
            | some lb => (some (lb.addr + META), s1)
            | none => (none, s1)
          | (none, s1) => (none, s1)
        else extendCoalescePath i size s b
      | none => extendCoalescePath i size s b

/-- Embeds `os_realloc`. -/
def osRealloc (p : Nat) (size : Nat) (s : AState) : Option Nat × AState :=
  if p = 0 then osMalloc size s
  else if size = 0 then (none, osFree p s)
  else
    match searchBlockInList p s.blocks with
    | none => (none, s)
    | some i =>
      match s.blocks[i]? with
      | none => (none, s)
      | some b =>
        if b.status = Status.free then (none, s)
        else
          let a := calign size
          if a = b.size then (some (b.addr + META), s)
          else if b.size < a then extendRealloc i a s
          else shrinkRealloc i a s

/-- One public allocator operation. -/
inductive Op where
  | malloc (n : Nat) : Op
  | free (p : Nat) : Op
  | calloc (n m : Nat) : Op
  | realloc (p n : Nat) : Op

/-- The state transition of one operation (the returned pointer dropped). -/
def step : Op → AState → AState
  | Op.malloc n, s => (osMalloc n s).2
  | Op.free p, s => osFree p s
  | Op.calloc n m, s => (osCalloc n m s).2
  | Op.realloc p n, s => (osRealloc p n s).2

/-- Run a sequence of operations from a state. -/
def run (ops : List Op) (s : AState) : AState := ops.foldl (fun t op => step op t) s

/-- Embeds `coalesce_blocks` applied to the list-adjacent blocks at `i` and `i + 1`:
the left block's size grows by `META + right.size` and the right block is
unlinked. -/
def coalescePairAt (bs : List Block) (i : Nat) : List Block :=
  match bs[i]?, bs[i + 1]? with
  | some b1, some b2 =>
    (bs.set i { b1 with size := cadd b1.size (cadd META b2.size) }).eraseIdx (i + 1)
  | _, _ => bs

/-- Two list-adjacent blocks may not both be free. -/
def pairOK (x y : Block) : Prop := ¬ (x.status = Status.free ∧ y.status = Status.free)

instance (x y : Block) : Decidable (pairOK x y) :=
  inferInstanceAs (Decidable (¬ (x.status = Status.free ∧ y.status = Status.free)))

/-- No two list-adjacent blocks are both `Free`. -/
def NoAdjacentFree (bs : List Block) : Prop := List.Chain' pairOK bs

instance (bs : List Block) : Decidable (NoAdjacentFree bs) :=
  inferInstanceAs (Decidable (List.Chain' pairOK bs))

/-- Executable check for a pair of list-adjacent free blocks. -/
def hasAdjFree : List Block → Bool
  | b1 :: b2 :: rest =>
      (decide (b1.status = Status.free) && decide (b2.status = Status.free))
        || hasAdjFree (b2 :: rest)
  | _ => false

/-- A candidate for the best-fit search: free and at least the request. -/
def cand (sz : Nat) (b : Block) : Prop := b.status = Status.free ∧ sz ≤ b.size

instance (sz : Nat) (b : Block) : Decidable (cand sz b) :=
  inferInstanceAs (Decidable (b.status = Status.free ∧ sz ≤ b.size))

/-- The best-fit postcondition as the spec states it: the result is `none`
exactly when no free block is large enough, and otherwise it is the first
free block of minimal size among those with `size ≥ sz`. -/
def BestFitSpec (sz : Nat) (bs : List Block) : Prop :=
  (findBestBlock sz bs = none ↔
    ∀ (k : Nat) (c : Block), bs[k]? = some c →
      ¬ (c.status = Status.free ∧ sz ≤ c.size))
  ∧ (∀ (i : Nat), findBestBlock sz bs = some i →
      ∃ (b : Block), bs[i]? = some b ∧ b.status = Status.free ∧ sz ≤ b.size ∧
        ∀ (k : Nat) (c : Block), bs[k]? = some c → c.status = Status.free →
          sz ≤ c.size → b.size ≤ c.size ∧ (k < i → b.size < c.size))

/-! ## Arithmetic facts about the `size_t` model -/

theorem W_pos : 0 < W := by unfold W; positivity

theorem W_mod8 : W % 8 = 0 := by decide

theorem cadd_eq (a b : Nat) (h : a + b < W) : cadd a b = a + b := by
  unfold cadd; exact Nat.mod_eq_of_lt h

theorem csub_eq (a b : Nat) (hb : b ≤ a) (ha : a < W) : csub a b = a - b := by
  unfold csub
  rw [Nat.mod_eq_of_lt (lt_of_le_of_lt hb ha)]
  have hsplit : a + (W - b) = W + (a - b) := by omega
  rw [hsplit, Nat.add_mod_left]
  exact Nat.mod_eq_of_lt (by omega)

theorem calign_lt (x : Nat) : calign x < W := by
  unfold calign cadd
  exact lt_of_le_of_lt (Nat.div_mul_le_self _ _) (Nat.mod_lt _ W_pos)

theorem calign_mod8 (x : Nat) : calign x % 8 = 0 := by
  unfold calign; exact Nat.mul_mod_left _ _

theorem calign_self (x : Nat) (h8 : x % 8 = 0) (hW : x < W) : calign x = x := by
  unfold calign cadd
  have h7 : x + 7 < W := by have := W_mod8; omega
  rw [Nat.mod_eq_of_lt h7]
  omega

theorem calign_idem (x : Nat) : calign (calign x) = calign x :=
  calign_self _ (calign_mod8 x) (calign_lt x)

theorem calign_zero : calign 0 = 0 := by decide

theorem sbrkMove_small (brk delta : Nat) (h : delta < 2 ^ 63) :
    sbrkMove brk delta = brk + delta := by
  unfold sbrkMove
  rw [if_pos h]

/-! ## List helpers -/

theorem getElem?_decomp {α : Type} (l : List α) (i : Nat) (a : α) (h : l[i]? = some a) :
    l.take i ++ a :: l.drop (i + 1) = l := by
  induction l generalizing i with
  | nil => simp at h
  | cons x xs ih =>
    cases i with
    | zero => simp_all
    | succ n =>
      simp only [List.getElem?_cons_succ] at h
      simp [ih n h]

theorem set_append_last {α : Type} (l : List α) (x y : α) :
    (l ++ [x]).set l.length y = l ++ [y] := by
  induction l with
  | nil => rfl
  | cons a as ih => simp [List.set, ih]

theorem set_cons_at {α : Type} (l1 : List α) (x y : α) (l2 : List α) :
    (l1 ++ x :: l2).set l1.length y = l1 ++ y :: l2 := by
  induction l1 with
  | nil => rfl
  | cons a as ih => simp [List.set, ih]

theorem eraseIdx_cons_at {α : Type} (l1 : List α) (x y : α) (l2 : List α) :
    (l1 ++ x :: y :: l2).eraseIdx (l1.length + 1) = l1 ++ x :: l2 := by
  induction l1 with
  | nil => rfl
  | cons a as ih => simp [List.eraseIdx, ih]

theorem set_cons_at_of {α : Type} (l1 : List α) (x y : α) (l2 : List α) (n : Nat)
    (hn : n = l1.length) : (l1 ++ x :: l2).set n y = l1 ++ y :: l2 := by
  subst hn; exact set_cons_at l1 x y l2

theorem eraseIdx_cons_at_of {α : Type} (l1 : List α) (x y : α) (l2 : List α) (n : Nat)
    (hn : n = l1.length + 1) : (l1 ++ x :: y :: l2).eraseIdx n = l1 ++ x :: l2 := by
  subst hn; exact eraseIdx_cons_at l1 x y l2

/-! ## Facts about `search_block_in_list` -/

theorem searchGo_some_spec (p : Nat) :
    ∀ (l : List Block) (n i : Nat), searchGo p l n = some i →
      ∃ k b, l[k]? = some b ∧ b.addr + META = p ∧ i = n + k := by
  intro l
  induction l with
  | nil => intro n i h; simp [searchGo] at h
  | cons b rest ih =>
    intro n i h
    unfold searchGo at h
    by_cases hb : b.addr + META = p
    · simp [hb] at h
      exact ⟨0, b, by simp, hb, by omega⟩
    · simp [hb] at h
      obtain ⟨k, c, hk, hc, hi⟩ := ih (n + 1) i h
      exact ⟨k + 1, c, by simpa using hk, hc, by omega⟩

theorem search_some_spec (p : Nat) (bs : List Block) (i : Nat)
    (h : searchBlockInList p bs = some i) :
    ∃ b, bs[i]? = some b ∧ b.addr + META = p := by
  obtain ⟨k, b, hk, hb, hi⟩ := searchGo_some_spec p bs 0 i h
  exact ⟨b, by simpa [hi] using hk, hb⟩

theorem searchGo_none_of (p : Nat) :
    ∀ (l : List Block) (n : Nat),
      (∀ (k : Nat) (b : Block), l[k]? = some b → b.addr + META ≠ p) → searchGo p l n = none := by
  intro l
  induction l with
  | nil => intro n _; rfl
  | cons b rest ih =>
    intro n hno
    unfold searchGo
    have hb : b.addr + META ≠ p := hno 0 b (by simp)
    simp only [hb, if_false]
    exact ih (n + 1) fun k c hk => hno (k + 1) c (by simpa using hk)

theorem search_none_of (p : Nat) (bs : List Block)
    (h : ∀ (k : Nat) (b : Block), bs[k]? = some b → b.addr + META ≠ p) :
    searchBlockInList p bs = none :=
  searchGo_none_of p bs 0 h

theorem searchGo_congr_addr (p : Nat) :
    ∀ (l l' : List Block) (n : Nat), l.map Block.addr = l'.map Block.addr →
      searchGo p l n = searchGo p l' n := by
  intro l
  induction l with
  | nil => intro l' n h; cases l' with
    | nil => rfl
    | cons c cs => simp at h
  | cons b rest ih =>
    intro l' n h
    cases l' with
    | nil => simp at h
    | cons c cs =>
      simp only [List.map_cons, List.cons.injEq] at h
      unfold searchGo
      rw [h.1]
      by_cases hc : c.addr + META = p
      · simp [hc]
      · simp only [hc, if_false]
        exact ih cs (n + 1) h.2

theorem map_addr_set (bs : List Block) (i : Nat) (b c : Block)
    (hi : bs[i]? = some b) (hc : c.addr = b.addr) :
    (bs.set i c).map Block.addr = bs.map Block.addr := by
  induction bs generalizing i with
  | nil => simp at hi
  | cons x xs ih =>
    cases i with
    | zero =>
      simp only [List.getElem?_cons_zero, Option.some.injEq] at hi
      subst hi; simp [List.set, hc]
    | succ n =>
      simp only [List.getElem?_cons_succ] at hi
      simp [List.set, ih n hi]

theorem search_set (p : Nat) (bs : List Block) (i : Nat) (b c : Block)
    (hi : bs[i]? = some b) (hc : c.addr = b.addr) :
    searchBlockInList p (bs.set i c) = searchBlockInList p bs :=
  searchGo_congr_addr p _ _ 0 (map_addr_set bs i b c hi hc)

/-! ## Characterization of the best-fit search -/

theorem findBestGo_cons (sz i : Nat) (b : Block) (rest : List Block)
    (acc : Option (Nat × Nat)) :
    findBestGo sz (b :: rest) i acc =
      findBestGo sz rest (i + 1)
        (if b.status = Status.free ∧ sz ≤ b.size then
           match acc with
           | none => some (i, b.size)
           | some (j, v) => if b.size < v then some (i, b.size) else some (j, v)
         else acc) := rfl

theorem draftFindBestGo_cons (sz i : Nat) (b : Block) (rest : List Block)
    (acc : Option (Nat × Nat)) :
    draftFindBestGo sz (b :: rest) i acc =
      if b.status = Status.free ∧ sz ≤ b.size then
        if b.size = sz then some (i, b.size)
        else
          draftFindBestGo sz rest (i + 1)
            (match acc with
             | none => some (i, b.size)
             | some (j, v) => if b.size < v then some (i, b.size) else some (j, v))
      else draftFindBestGo sz rest (i + 1) acc := rfl

theorem pairSomeInj {a b c d : Nat} (h : (some (a, b) : Option (Nat × Nat)) = some (c, d)) :
    a = c ∧ b = d := by
  simp only [Option.some.injEq, Prod.mk.injEq] at h
  exact h

theorem findBestGo_cons_none (sz i : Nat) (b : Block) (rest : List Block)
    (hc : b.status = Status.free ∧ sz ≤ b.size) :
    findBestGo sz (b :: rest) i none = findBestGo sz rest (i + 1) (some (i, b.size)) := by
  rw [findBestGo_cons, if_pos hc]

theorem findBestGo_cons_some (sz i u w : Nat) (b : Block) (rest : List Block)
    (hc : b.status = Status.free ∧ sz ≤ b.size) :
    findBestGo sz (b :: rest) i (some (u, w)) =
      findBestGo sz rest (i + 1)
        (if b.size < w then some (i, b.size) else some (u, w)) := by
  rw [findBestGo_cons, if_pos hc]

theorem findBestGo_cons_neg (sz i : Nat) (b : Block) (rest : List Block)
    (acc : Option (Nat × Nat)) (hc : ¬ (b.status = Status.free ∧ sz ≤ b.size)) :
    findBestGo sz (b :: rest) i acc = findBestGo sz rest (i + 1) acc := by
  rw [findBestGo_cons, if_neg hc]

theorem findBestGo_spec (sz : Nat) :
    ∀ (l : List Block) (i : Nat) (acc : Option (Nat × Nat)),
      (findBestGo sz l i acc = none → acc = none ∧
        ∀ (k : Nat) (c : Block), l[k]? = some c → ¬ cand sz c)
      ∧ (∀ (j v : Nat), findBestGo sz l i acc = some (j, v) →
          (acc = some (j, v) ∧
            ∀ (k : Nat) (c : Block), l[k]? = some c → cand sz c → v ≤ c.size)
          ∨ (∃ (k : Nat) (b : Block), l[k]? = some b ∧ j = i + k ∧ v = b.size ∧ cand sz b
              ∧ (∀ (u w : Nat), acc = some (u, w) → v < w)
              ∧ (∀ (m : Nat) (c : Block), l[m]? = some c → cand sz c →
                  v ≤ c.size ∧ (m < k → v < c.size)))) := by
  intro l
  induction l with
  | nil =>
    intro i acc
    constructor
    · intro h
      exact ⟨h, by intro k c hk; simp at hk⟩
    · intro j v h
      left
      exact ⟨h, by intro k c hk; simp at hk⟩
  | cons b rest ih =>
    intro i acc
    by_cases hcb : b.status = Status.free ∧ sz ≤ b.size
    · have hcand : cand sz b := hcb
      cases acc with
      | none =>
        rw [findBestGo_cons_none sz i b rest hcb]
        constructor
        · intro h
          exact absurd ((ih (i + 1) (some (i, b.size))).1 h).1 (by simp)
        · intro j v h
          rcases (ih (i + 1) (some (i, b.size))).2 j v h with ⟨hacc, hmin⟩ | hfound
          · right
            obtain ⟨hj, hv⟩ := pairSomeInj hacc
            refine ⟨0, b, by simp, by omega, hv.symm, hcand, ?_, ?_⟩
            · intro u w hw
              cases hw
            intro m c hm hc
            cases m with
            | zero =>
              simp only [List.getElem?_cons_zero, Option.some.injEq] at hm
              subst hm
              exact ⟨by omega, by omega⟩
            | succ n =>
              simp only [List.getElem?_cons_succ] at hm
              exact ⟨hmin n c hm hc, by omega⟩
          · obtain ⟨k, b2, hk, hj, hv, hc2, hdom, hall⟩ := hfound
            right
            have hlt : v < b.size := hdom i b.size rfl
            refine ⟨k + 1, b2, by simpa using hk, by omega, hv, hc2, ?_, ?_⟩
            · intro u w hw
              cases hw
            intro m c hm hc
            cases m with
            | zero =>
              simp only [List.getElem?_cons_zero, Option.some.injEq] at hm
              subst hm
              exact ⟨le_of_lt hlt, fun _ => hlt⟩
            | succ n =>
              simp only [List.getElem?_cons_succ] at hm
              have h2 := hall n c hm hc
              exact ⟨h2.1, fun h3 => h2.2 (by omega)⟩
      | some p =>
        obtain ⟨u0, w0⟩ := p
        rw [findBestGo_cons_some sz i u0 w0 b rest hcb]
        by_cases hlt : b.size < w0
        · rw [if_pos hlt]
          constructor
          · intro h
            exact absurd ((ih (i + 1) (some (i, b.size))).1 h).1 (by simp)
          · intro j v h
            rcases (ih (i + 1) (some (i, b.size))).2 j v h with ⟨hacc, hmin⟩ | hfound
            · right
              obtain ⟨hj, hv⟩ := pairSomeInj hacc
              refine ⟨0, b, by simp, by omega, hv.symm, hcand, ?_, ?_⟩
              · intro u w hw
                obtain ⟨hu, hww⟩ := pairSomeInj hw
                omega
              · intro m c hm hc
                cases m with
                | zero =>
                  simp only [List.getElem?_cons_zero, Option.some.injEq] at hm
                  subst hm
                  exact ⟨by omega, by omega⟩
                | succ n =>
                  simp only [List.getElem?_cons_succ] at hm
                  exact ⟨by have := hmin n c hm hc; omega, by omega⟩
            · obtain ⟨k, b2, hk, hj, hv, hc2, hdom, hall⟩ := hfound
              right
              have hvb : v < b.size := hdom i b.size rfl
              refine ⟨k + 1, b2, by simpa using hk, by omega, hv, hc2, ?_, ?_⟩
              · intro u w hw
                obtain ⟨hu, hww⟩ := pairSomeInj hw
                omega
              · intro m c hm hc
                cases m with
                | zero =>
                  simp only [List.getElem?_cons_zero, Option.some.injEq] at hm
                  subst hm
                  exact ⟨le_of_lt hvb, fun _ => hvb⟩
                | succ n =>
                  simp only [List.getElem?_cons_succ] at hm
                  have h2 := hall n c hm hc
                  exact ⟨h2.1, fun h3 => h2.2 (by omega)⟩
        · rw [if_neg hlt]
          constructor
          · intro h
            exact absurd ((ih (i + 1) (some (u0, w0))).1 h).1 (by simp)
          · intro j v h
            rcases (ih (i + 1) (some (u0, w0))).2 j v h with ⟨hacc, hmin⟩ | hfound
            · left
              refine ⟨hacc, ?_⟩
              obtain ⟨hu, hw⟩ := pairSomeInj hacc
              intro m c hm hc
              cases m with
              | zero =>
                simp only [List.getElem?_cons_zero, Option.some.injEq] at hm
                subst hm
                omega
              | succ n =>
                simp only [List.getElem?_cons_succ] at hm
                exact hmin n c hm hc
            · obtain ⟨k, b2, hk, hj, hv, hc2, hdom, hall⟩ := hfound
              right
              have hvw : v < w0 := hdom u0 w0 rfl
              refine ⟨k + 1, b2, by simpa using hk, by omega, hv, hc2, ?_, ?_⟩
              · intro u w hw
                obtain ⟨hu, hww⟩ := pairSomeInj hw
                omega
              · intro m c hm hc
                cases m with
                | zero =>
                  simp only [List.getElem?_cons_zero, Option.some.injEq] at hm
                  subst hm
                  omega
                | succ n =>
                  simp only [List.getElem?_cons_succ] at hm
                  have h2 := hall n c hm hc
                  exact ⟨h2.1, fun h3 => h2.2 (by omega)⟩
    · rw [findBestGo_cons_neg sz i b rest acc hcb]
      constructor
      · intro h
        obtain ⟨ha, hno⟩ := (ih (i + 1) acc).1 h
        refine ⟨ha, ?_⟩
        intro k c hk
        cases k with
        | zero =>
          simp only [List.getElem?_cons_zero, Option.some.injEq] at hk
          subst hk
          exact fun hcc => hcb hcc
        | succ n =>
          simp only [List.getElem?_cons_succ] at hk
          exact hno n c hk
      · intro j v h
        rcases (ih (i + 1) acc).2 j v h with ⟨hacc, hmin⟩ | hfound
        · left
          refine ⟨hacc, ?_⟩
          intro m c hm hc
          cases m with
          | zero =>
            simp only [List.getElem?_cons_zero, Option.some.injEq] at hm
            subst hm
            exact absurd hc hcb
          | succ n =>
            simp only [List.getElem?_cons_succ] at hm
            exact hmin n c hm hc
        · obtain ⟨k, b2, hk, hj, hv, hc2, hdom, hall⟩ := hfound
          right
          refine ⟨k + 1, b2, by simpa using hk, by omega, hv, hc2, ?_, ?_⟩
          · exact hdom
          intro m c hm hc
          cases m with
          | zero =>
            simp only [List.getElem?_cons_zero, Option.some.injEq] at hm
            subst hm
            exact absurd hc hcb
          | succ n =>
            simp only [List.getElem?_cons_succ] at hm
            have h2 := hall n c hm hc
            exact ⟨h2.1, fun h3 => h2.2 (by omega)⟩

theorem findBestGo_none_of (sz : Nat) :
    ∀ (l : List Block) (i : Nat),
      (∀ (k : Nat) (c : Block), l[k]? = some c → ¬ cand sz c) →
      findBestGo sz l i none = none := by
  intro l
  induction l with
  | nil => intro i _; rfl
  | cons b rest ih =>
    intro i hno
    have hb : ¬ (b.status = Status.free ∧ sz ≤ b.size) := hno 0 b (by simp)
    rw [findBestGo_cons_neg sz i b rest none hb]
    exact ih (i + 1) fun k c hk => hno (k + 1) c (by simpa using hk)

/-- C2: For every list state and every aligned request size, the best-fit
search returns, among the `Free` blocks whose size is at least the requested
size, the one with the smallest size, breaking ties by first occurrence in
list order, and returns none when no `Free` block is large enough. -/
theorem c2_find_best_block (sz : Nat) (bs : List Block)
    (h8 : sz % 8 = 0) (hW : sz < W) : BestFitSpec sz bs := by
  have hca : calign sz = sz := calign_self sz h8 hW
  unfold BestFitSpec findBestBlock
  rw [hca]
  constructor
  · constructor
    · intro h k c hk hc
      have hgo : findBestGo sz bs 0 none = none := by
        cases hgo : findBestGo sz bs 0 none with
        | none => rfl
        | some q => rw [hgo] at h; simp at h
      exact ((findBestGo_spec sz bs 0 none).1 hgo).2 k c hk hc
    · intro h
      rw [findBestGo_none_of sz bs 0 fun k c hk => h k c hk]
      rfl
  · intro i hi
    obtain ⟨q, hq, hfst⟩ := Option.map_eq_some'.mp hi
    obtain ⟨j, v⟩ := q
    rcases (findBestGo_spec sz bs 0 none).2 j v hq with ⟨hacc, _⟩ | hfound
    · cases hacc
    · obtain ⟨k, b, hk, hj, hv, hc, _, hall⟩ := hfound
      have hik : i = k := by simp at hfst; omega
      subst hik
      refine ⟨b, by simpa [hj] using hk, hc.1, hc.2, ?_⟩
      intro m c hm hcs hcz
      have h2 := hall m c hm ⟨hcs, hcz⟩
      exact ⟨hv ▸ h2.1, fun hmi => hv ▸ h2.2 (by omega)⟩

/-- Witness for C2 at a concrete list and request. -/
theorem c2_find_best_block_witness :
    (8 : Nat) % 8 = 0 ∧ (8 : Nat) < W ∧
      BestFitSpec 8
        [{ addr := 0, size := 32, status := Status.free },
         { addr := 100, size := 16, status := Status.alloc },
         { addr := 200, size := 16, status := Status.free },
         { addr := 300, size := 16, status := Status.free }] :=
  ⟨by decide, by decide,
    c2_find_best_block 8 _ (by decide) (by decide)⟩

/-! ## Equivalence of the draft and final best-fit searches -/

theorem draftFindBestGo_cons_pos_exact (sz i : Nat) (b : Block) (rest : List Block)
    (acc : Option (Nat × Nat)) (hc : b.status = Status.free ∧ sz ≤ b.size)
    (he : b.size = sz) :
    draftFindBestGo sz (b :: rest) i acc = some (i, b.size) := by
  rw [draftFindBestGo_cons, if_pos hc, if_pos he]

theorem draftFindBestGo_cons_pos_ne (sz i : Nat) (b : Block) (rest : List Block)
    (acc : Option (Nat × Nat)) (hc : b.status = Status.free ∧ sz ≤ b.size)
    (he : ¬ b.size = sz) :
    draftFindBestGo sz (b :: rest) i acc =
      draftFindBestGo sz rest (i + 1)
        (match acc with
         | none => some (i, b.size)
         | some (j, v) => if b.size < v then some (i, b.size) else some (j, v)) := by
  rw [draftFindBestGo_cons, if_pos hc, if_neg he]

theorem draftFindBestGo_cons_neg (sz i : Nat) (b : Block) (rest : List Block)
    (acc : Option (Nat × Nat)) (hc : ¬ (b.status = Status.free ∧ sz ≤ b.size)) :
    draftFindBestGo sz (b :: rest) i acc = draftFindBestGo sz rest (i + 1) acc := by
  rw [draftFindBestGo_cons, if_neg hc]

/-- Once the scan holds a candidate of exactly the requested size, the final
search never replaces it. -/
theorem findBestGo_keeps_exact (sz : Nat) :
    ∀ (l : List Block) (i j : Nat),
      findBestGo sz l i (some (j, sz)) = some (j, sz) := by
  intro l
  induction l with
  | nil => intro i j; rfl
  | cons b rest ih =>
    intro i j
    by_cases hc : b.status = Status.free ∧ sz ≤ b.size
    · rw [findBestGo_cons_some sz i j sz b rest hc]
      have : ¬ b.size < sz := by omega
      rw [if_neg this]
      exact ih (i + 1) j
    · rw [findBestGo_cons_neg sz i b rest _ hc]
      exact ih (i + 1) j

theorem draft_eq_final_go (sz : Nat) :
    ∀ (l : List Block) (i : Nat) (acc : Option (Nat × Nat)),
      (∀ (u w : Nat), acc = some (u, w) → sz < w) →
      draftFindBestGo sz l i acc = findBestGo sz l i acc := by
  intro l
  induction l with
  | nil => intro i acc _; rfl
  | cons b rest ih =>
    intro i acc hinv
    by_cases hc : b.status = Status.free ∧ sz ≤ b.size
    · by_cases he : b.size = sz
      · rw [draftFindBestGo_cons_pos_exact sz i b rest acc hc he]
        cases acc with
        | none =>
          rw [findBestGo_cons_none sz i b rest hc, he]
          exact (findBestGo_keeps_exact sz rest (i + 1) i).symm
        | some p =>
          obtain ⟨u, w⟩ := p
          have hw : sz < w := hinv u w rfl
          rw [findBestGo_cons_some sz i u w b rest hc, if_pos (by omega : b.size < w), he]
          exact (findBestGo_keeps_exact sz rest (i + 1) i).symm
      · cases acc with
        | none =>
          rw [draftFindBestGo_cons_pos_ne sz i b rest none hc he,
            findBestGo_cons_none sz i b rest hc]
          exact ih (i + 1) (some (i, b.size)) (by
            intro u w hw
            obtain ⟨hu, hww⟩ := pairSomeInj hw
            omega)
        | some p =>
          obtain ⟨u, w⟩ := p
          rw [draftFindBestGo_cons_pos_ne sz i b rest (some (u, w)) hc he,
            findBestGo_cons_some sz i u w b rest hc]
          show draftFindBestGo sz rest (i + 1)
              (if b.size < w then some (i, b.size) else some (u, w)) =
            findBestGo sz rest (i + 1)
              (if b.size < w then some (i, b.size) else some (u, w))
          have hw : sz < w := hinv u w rfl
          by_cases hlt : b.size < w
          · rw [if_pos hlt]
            exact ih (i + 1) (some (i, b.size)) (by
              intro u2 w2 hw2
              obtain ⟨hu2, hww2⟩ := pairSomeInj hw2
              omega)
          · rw [if_neg hlt]
            exact ih (i + 1) (some (u, w)) (by
              intro u2 w2 hw2
              obtain ⟨hu2, hww2⟩ := pairSomeInj hw2
              omega)
    · rw [draftFindBestGo_cons_neg sz i b rest acc hc,
        findBestGo_cons_neg sz i b rest acc hc]
      exact ih (i + 1) acc hinv

/-- C9: For every list state and every request size that is a multiple
of 8, the draft best-fit search (early return on an exact size match) and
the final best-fit search (full scan keeping the first strictly smallest
free candidate) return the same block, or both return none. -/
theorem c9_draft_final_equiv (sz : Nat) (bs : List Block)
    (h8 : sz % 8 = 0) (hW : sz < W) :
    draftFindBestBlock sz bs = findBestBlock sz bs := by
  unfold draftFindBestBlock findBestBlock
  rw [calign_self sz h8 hW,
    draft_eq_final_go sz bs 0 none (by intro u w hw; cases hw)]

/-! ## Splitting and coalescing -/

theorem META_eq : META = 32 := rfl

theorem W_eq : W = 18446744073709551616 := by norm_num [W]

theorem split_cases (bs : List Block) (i : Nat) (b : Block) (a : Nat)
    (hi : bs[i]? = some b) :
    splitBlockAttempt bs i a = bs ∨
      splitBlockAttempt bs i a =
        bs.take i ++ { b with size := calign a } ::
          ({ addr := b.addr + META + calign a,
             size := csub (csub b.size (calign a)) META,
             status := Status.free } : Block) :: bs.drop (i + 1) := by
  simp only [splitBlockAttempt, hi]
  by_cases h1 : b.size = calign a
  · left; rw [if_pos h1]
  · rw [if_neg h1]
    by_cases h2 : b.size ≤ cadd (cadd (calign a) META) 1
    · left; rw [if_pos h2]
    · right; rw [if_neg h2]

theorem split_shape (bs : List Block) (i : Nat) (b : Block) (a : Nat)
    (hi : bs[i]? = some b) (h8a : a % 8 = 0) (h8b : b.size % 8 = 0)
    (hWa : a + META + 8 ≤ W) (hWb : b.size < W) :
    (b.size < a + META + 8 → splitBlockAttempt bs i a = bs)
    ∧ (a + META + 8 ≤ b.size →
        splitBlockAttempt bs i a =
          bs.take i ++ { b with size := a } ::
            ({ addr := b.addr + META + a,
               size := b.size - a - META,
               status := Status.free } : Block) :: bs.drop (i + 1)) := by
  have hM := META_eq
  have hWval := W_eq
  have hcal : calign a = a := calign_self a h8a (by omega)
  have hc1 : cadd a META = a + 32 := by rw [hM]; exact cadd_eq a 32 (by omega)
  have hc2 : cadd (a + 32) 1 = a + 33 := cadd_eq _ 1 (by omega)
  constructor
  · intro hlt
    simp only [splitBlockAttempt, hi, hcal]
    by_cases h1 : b.size = a
    · rw [if_pos h1]
    · rw [if_neg h1, hc1, hc2, if_pos (show b.size ≤ a + 33 by omega)]
  · intro hge
    simp only [splitBlockAttempt, hi, hcal]
    rw [if_neg (show ¬ b.size = a by omega), hc1, hc2,
      if_neg (show ¬ b.size ≤ a + 33 by omega),
      csub_eq b.size a (by omega) hWb, hM,
      csub_eq (b.size - a) 32 (by omega) (by omega)]

/-- C3: For every selected block and every aligned size `a`, a split
occurs exactly when `block.size ≥ a + META + 8`; when it does, the trailing
block has size `original - a - META` and status `Free` and is inserted into
the list immediately after the block, the left block's size becomes exactly
`a`, and when the threshold is not met the block is left unchanged.  (The
bounds `a + META + 8 ≤ 2^64` and `block.size < 2^64` reflect that both
quantities are `size_t` values, and the divisibility hypotheses that sizes
are 8-aligned.) -/
theorem c3_split_threshold (bs : List Block) (i : Nat) (b : Block) (a : Nat)
    (hi : bs[i]? = some b) (h8a : a % 8 = 0) (h8b : b.size % 8 = 0)
    (hWa : a + META + 8 ≤ W) (hWb : b.size < W) :
    (b.size < a + META + 8 → splitBlockAttempt bs i a = bs)
    ∧ (a + META + 8 ≤ b.size →
        splitBlockAttempt bs i a =
          bs.take i ++ { b with size := a } ::
            ({ addr := b.addr + META + a,
               size := b.size - a - META,
               status := Status.free } : Block) :: bs.drop (i + 1)) :=
  split_shape bs i b a hi h8a h8b hWa hWb

/-- Witness for C3: a split at `a = 8` on a free block of size 100. -/
theorem c3_split_threshold_witness :
    ([{ addr := 1000, size := 104, status := Status.free }] : List Block)[0]? =
        some { addr := 1000, size := 104, status := Status.free } ∧
      (8 : Nat) % 8 = 0 ∧ (104 : Nat) % 8 = 0 ∧
      splitBlockAttempt [{ addr := 1000, size := 104, status := Status.free }] 0 8 =
        [{ addr := 1000, size := 8, status := Status.free },
         { addr := 1040, size := 64, status := Status.free }] := by
  refine ⟨by decide, by decide, by decide, ?_⟩
  have h := (c3_split_threshold
    [{ addr := 1000, size := 104, status := Status.free }] 0
    { addr := 1000, size := 104, status := Status.free } 8
    (by decide) (by decide) (by decide) (by decide) (by decide)).2 (by decide)
  simpa using h

/-- C10: Coalescing undoes splitting: for every `Free` block `b` and
aligned size `a` such that a split occurs (`b.size > a + META + 1`),
applying coalesce to `b` and the trailing block produced by splitting `b`
at `a` restores `b`'s original size and the original list links. -/
theorem c10_coalesce_undoes_split (bs : List Block) (i : Nat) (b : Block) (a : Nat)
    (hi : bs[i]? = some b) (hfree : b.status = Status.free)
    (h8a : a % 8 = 0) (hWa : a + META + 1 < W) (hWb : b.size < W)
    (hgt : a + META + 1 < b.size) :
    coalescePairAt (splitBlockAttempt bs i a) i = bs := by
  have hM := META_eq
  have hWval := W_eq
  have hcal : calign a = a := calign_self a h8a (by omega)
  have hc1 : cadd a META = a + 32 := by rw [hM]; exact cadd_eq a 32 (by omega)
  have hc2 : cadd (a + 32) 1 = a + 33 := cadd_eq _ 1 (by omega)
  have hilen : i < bs.length := by
    by_contra hge
    rw [List.getElem?_eq_none (by omega)] at hi
    cases hi
  have htake : (bs.take i).length = i := by
    rw [List.length_take]; omega
  -- the split produces the two-block decomposition
  have hsplit : splitBlockAttempt bs i a =
      bs.take i ++ { b with size := a } ::
        ({ addr := b.addr + META + a,
           size := b.size - a - META,
           status := Status.free } : Block) :: bs.drop (i + 1) := by
    simp only [splitBlockAttempt, hi, hcal]
    rw [if_neg (show ¬ b.size = a by omega), hc1, hc2,
      if_neg (show ¬ b.size ≤ a + 33 by omega),
      csub_eq b.size a (by omega) hWb, hM,
      csub_eq (b.size - a) 32 (by omega) (by omega)]
  rw [hsplit]
  unfold coalescePairAt
  rw [List.getElem?_append_right (by omega),
    List.getElem?_append_right (by omega)]
  simp only [htake, Nat.sub_self, List.getElem?_cons_zero,
    show i + 1 - i = 1 by omega, List.getElem?_cons_succ]
  have hmerge : cadd a (cadd META (b.size - a - META)) = b.size := by
    rw [hM, cadd_eq 32 (b.size - a - 32) (by omega), cadd_eq a _ (by omega)]
    omega
  rw [hmerge]
  have heta : ({ addr := b.addr, size := b.size, status := b.status } : Block) = b := rfl
  rw [set_cons_at_of (bs.take i) _ _ _ i htake.symm,
    eraseIdx_cons_at_of (bs.take i) _ _ _ (i + 1) (by omega)]
  rw [heta]
  exact getElem?_decomp bs i b hi

/-- Witness for C10: coalescing the two halves of a concrete split restores
the original one-block list. -/
theorem c10_coalesce_undoes_split_witness :
    ([{ addr := 1000, size := 104, status := Status.free }] : List Block)[0]? =
        some { addr := 1000, size := 104, status := Status.free } ∧
      (8 : Nat) % 8 = 0 ∧ 8 + META + 1 < 104 ∧
      coalescePairAt
          (splitBlockAttempt [{ addr := 1000, size := 104, status := Status.free }] 0 8) 0 =
        [{ addr := 1000, size := 104, status := Status.free }] :=
  ⟨by decide, by decide, by decide,
    c10_coalesce_undoes_split
      [{ addr := 1000, size := 104, status := Status.free }] 0
      { addr := 1000, size := 104, status := Status.free } 8
      (by decide) (by decide) (by decide) (by decide) (by decide) (by decide)⟩

/-- Witness for C9 at a concrete list and request. -/
theorem c9_draft_final_equiv_witness :
    (16 : Nat) % 8 = 0 ∧ (16 : Nat) < W ∧
      draftFindBestBlock 16
          [{ addr := 0, size := 32, status := Status.free },
           { addr := 100, size := 16, status := Status.alloc },
           { addr := 200, size := 16, status := Status.free },
           { addr := 300, size := 16, status := Status.free }] =
        findBestBlock 16
          [{ addr := 0, size := 32, status := Status.free },
           { addr := 100, size := 16, status := Status.alloc },
           { addr := 200, size := 16, status := Status.free },
           { addr := 300, size := 16, status := Status.free }] :=
  ⟨by decide, by decide, c9_draft_final_equiv 16 _ (by decide) (by decide)⟩

/-! ## Behavior of `os_free` -/

/-- C5: `free(p)` is a no-op when `p` is null; when the located block is
already `Free` it is a no-op; when the block is `Mapped` the block is
unlinked and its entire region of `META + size` bytes is unmapped; when the
block is `Allocated` its status becomes `Free` with no coalescing;
consequently calling free twice on the same pointer does nothing the second
time (the uniqueness hypothesis states that at most one live descriptor owns
the payload pointer, which holds in every state the C program can reach). -/
theorem c5_free_behavior (s : AState) (p : Nat) :
    (osFree 0 s = s)
    ∧ (∀ (i : Nat) (b : Block), p ≠ 0 → searchBlockInList p s.blocks = some i →
        s.blocks[i]? = some b →
        ((b.status = Status.free → osFree p s = s)
         ∧ (b.status = Status.mapped → b.size + META < W →
             osFree p s =
               { s with blocks := s.blocks.eraseIdx i,
                        unmapLog := s.unmapLog ++ [(b.addr, META + b.size)] })
         ∧ (b.status = Status.alloc →
             osFree p s =
               { s with blocks := s.blocks.set i { b with status := Status.free } })))
    ∧ ((∀ (j k : Nat) (c d : Block), s.blocks[j]? = some c → s.blocks[k]? = some d →
          c.addr + META = p → d.addr + META = p → j = k) →
        osFree p (osFree p s) = osFree p s) := by
  refine ⟨by simp [osFree], ?_, ?_⟩
  · intro i b hp hsearch hblk
    refine ⟨?_, ?_, ?_⟩
    · intro hst
      simp [osFree, if_neg hp, hsearch, hblk, hst]
    · intro hst hsz
      have hlog : cadd b.size META = META + b.size := by
        rw [META_eq] at hsz ⊢
        rw [cadd_eq _ _ hsz]
        omega
      simp [osFree, if_neg hp, hsearch, hblk, hst, deleteMappedBlockAt, hlog]
    · intro hst
      simp [osFree, if_neg hp, hsearch, hblk, hst]
  · intro huniq
    by_cases hp : p = 0
    · subst hp; simp [osFree]
    · cases hsearch : searchBlockInList p s.blocks with
      | none => simp [osFree, if_neg hp, hsearch]
      | some i =>
        obtain ⟨b, hblk, haddr⟩ := search_some_spec p s.blocks i hsearch
        cases hst : b.status with
        | free => simp [osFree, if_neg hp, hsearch, hblk, hst]
        | alloc =>
          have hfirst : osFree p s =
              { s with blocks := s.blocks.set i { b with status := Status.free } } := by
            simp [osFree, if_neg hp, hsearch, hblk, hst]
          rw [hfirst]
          have hsearch2 : searchBlockInList p
              (s.blocks.set i { b with status := Status.free }) = some i := by
            rw [search_set p s.blocks i b { b with status := Status.free } hblk rfl]
            exact hsearch
          have hblk2 : (s.blocks.set i { b with status := Status.free })[i]? =
              some { b with status := Status.free } := by
            rw [List.getElem?_set]
            have hilen : i < s.blocks.length := by
              by_contra hge
              rw [List.getElem?_eq_none (by omega)] at hblk
              cases hblk
            simp [hilen]
          simp [osFree, if_neg hp, hsearch2, hblk2]
        | mapped =>
          have hfirst : osFree p s =
              { s with blocks := s.blocks.eraseIdx i,
                       unmapLog := s.unmapLog ++ [(b.addr, cadd b.size META)] } := by
            simp [osFree, if_neg hp, hsearch, hblk, hst, deleteMappedBlockAt]
          rw [hfirst]
          have hsearch2 : searchBlockInList p (s.blocks.eraseIdx i) = none := by
            apply search_none_of
            intro k c hk hkaddr
            rw [List.getElem?_eraseIdx] at hk
            by_cases hki : k < i
            · rw [if_pos hki] at hk
              have := huniq k i c b hk hblk hkaddr haddr
              omega
            · rw [if_neg hki] at hk
              have := huniq (k + 1) i c b hk hblk hkaddr haddr
              omega
          simp [osFree, if_neg hp, hsearch2]

/-- Witness for C5 at a concrete one-block state (a mapped block), checking
the null no-op, the mapped unmap case and double-free idempotence. -/
theorem c5_free_behavior_witness :
    (osFree 0
        { blocks := [{ addr := MAPBASE, size := 64, status := Status.mapped }],
          brk := HEAPBASE, mapCtr := 96, headInit := true,
          prealloc := false, unmapLog := [] } =
      { blocks := [{ addr := MAPBASE, size := 64, status := Status.mapped }],
        brk := HEAPBASE, mapCtr := 96, headInit := true,
        prealloc := false, unmapLog := [] })
    ∧ osFree (MAPBASE + META)
        { blocks := [{ addr := MAPBASE, size := 64, status := Status.mapped }],
          brk := HEAPBASE, mapCtr := 96, headInit := true,
          prealloc := false, unmapLog := [] } =
      { blocks := [], brk := HEAPBASE, mapCtr := 96, headInit := true,
        prealloc := false, unmapLog := [(MAPBASE, META + 64)] }
    ∧ osFree (MAPBASE + META)
        (osFree (MAPBASE + META)
          { blocks := [{ addr := MAPBASE, size := 64, status := Status.mapped }],
            brk := HEAPBASE, mapCtr := 96, headInit := true,
            prealloc := false, unmapLog := [] }) =
      osFree (MAPBASE + META)
        { blocks := [{ addr := MAPBASE, size := 64, status := Status.mapped }],
          brk := HEAPBASE, mapCtr := 96, headInit := true,
          prealloc := false, unmapLog := [] } := by
  have h := c5_free_behavior
    { blocks := [{ addr := MAPBASE, size := 64, status := Status.mapped }],
      brk := HEAPBASE, mapCtr := 96, headInit := true,
      prealloc := false, unmapLog := [] } (MAPBASE + META)
  refine ⟨h.1, ?_, ?_⟩
  · have h2 := (h.2.1 0 { addr := MAPBASE, size := 64, status := Status.mapped }
      (by decide) (by decide) (by decide)).2.1 (by decide) (by decide)
    rw [h2]
    decide
  · refine h.2.2 ?_
    intro j k c d hj hk hc hd
    have hj1 : j < 1 := by
      by_contra hge
      rw [List.getElem?_eq_none (by simp; omega)] at hj
      cases hj
    have hk1 : k < 1 := by
      by_contra hge
      rw [List.getElem?_eq_none (by simp; omega)] at hk
      cases hk
    omega

/-! ## The `os_realloc` preamble and `os_calloc` overflow check -/

/-- C4: `reallocate(p, s)` with `p` null behaves as `allocate(s)`; with
`s` zero it frees `p` and returns null; when no list block's payload start
equals `p`, or the owning block's status is `Free`, it returns null with no
state change; and when `round_up(s, 8)` equals the owning block's size it
returns `p` unchanged with no state change. -/
theorem c4_realloc_preamble (s : AState) (p size : Nat) :
    (osRealloc 0 size s = osMalloc size s)
    ∧ (p ≠ 0 → osRealloc p 0 s = (none, osFree p s))
    ∧ (p ≠ 0 → size ≠ 0 → searchBlockInList p s.blocks = none →
        osRealloc p size s = (none, s))
    ∧ (∀ (i : Nat) (b : Block), p ≠ 0 → size ≠ 0 →
        searchBlockInList p s.blocks = some i → s.blocks[i]? = some b →
        ((b.status = Status.free → osRealloc p size s = (none, s))
         ∧ (b.status ≠ Status.free → calign size = b.size →
             osRealloc p size s = (some p, s)))) := by
  refine ⟨by simp [osRealloc], ?_, ?_, ?_⟩
  · intro hp
    simp [osRealloc, if_neg hp]
  · intro hp hsz hsearch
    simp [osRealloc, if_neg hp, if_neg hsz, hsearch]
  · intro i b hp hsz hsearch hblk
    obtain ⟨b2, hblk2, haddr⟩ := search_some_spec p s.blocks i hsearch
    have hbb : b2 = b := by
      rw [hblk] at hblk2
      exact (Option.some.inj hblk2).symm
    subst hbb
    constructor
    · intro hst
      simp [osRealloc, if_neg hp, if_neg hsz, hsearch, hblk, hst]
    · intro hst heq
      simp [osRealloc, if_neg hp, if_neg hsz, hsearch, hblk, if_neg hst,
        if_pos heq, haddr]

/-- Witness for C4 at a concrete one-block state. -/
theorem c4_realloc_preamble_witness :
    (osRealloc 0 16
        { blocks := [{ addr := HEAPBASE, size := 32, status := Status.alloc }],
          brk := HEAPBASE + 131072, mapCtr := 0, headInit := true,
          prealloc := true, unmapLog := [] } =
      osMalloc 16
        { blocks := [{ addr := HEAPBASE, size := 32, status := Status.alloc }],
          brk := HEAPBASE + 131072, mapCtr := 0, headInit := true,
          prealloc := true, unmapLog := [] })
    ∧ (osRealloc 12345 16
        { blocks := [{ addr := HEAPBASE, size := 32, status := Status.alloc }],
          brk := HEAPBASE + 131072, mapCtr := 0, headInit := true,
          prealloc := true, unmapLog := [] } =
      (none,
        { blocks := [{ addr := HEAPBASE, size := 32, status := Status.alloc }],
          brk := HEAPBASE + 131072, mapCtr := 0, headInit := true,
          prealloc := true, unmapLog := [] }))
    ∧ (osRealloc (HEAPBASE + META) 32
        { blocks := [{ addr := HEAPBASE, size := 32, status := Status.alloc }],
          brk := HEAPBASE + 131072, mapCtr := 0, headInit := true,
          prealloc := true, unmapLog := [] } =
      (some (HEAPBASE + META),
        { blocks := [{ addr := HEAPBASE, size := 32, status := Status.alloc }],
          brk := HEAPBASE + 131072, mapCtr := 0, headInit := true,
          prealloc := true, unmapLog := [] })) := by
  have h := c4_realloc_preamble
    { blocks := [{ addr := HEAPBASE, size := 32, status := Status.alloc }],
      brk := HEAPBASE + 131072, mapCtr := 0, headInit := true,
      prealloc := true, unmapLog := [] }
  refine ⟨(h 0 16).1, ?_, ?_⟩
  · exact (h 12345 16).2.2.1 (by decide) (by decide) (by decide)
  · exact ((h (HEAPBASE + META) 32).2.2.2 0
      { addr := HEAPBASE, size := 32, status := Status.alloc }
      (by decide) (by decide) (by decide) (by decide)).2 (by decide) (by decide)

/-- C7: `zero_allocate(n, size)` returns null when either operand is
zero, and fails by returning null with no state change when the product
`n * size` (computed modulo `2^64`) rounded up to a multiple of 8 is less
than `n` or less than `size`.  (The state is already head-initialized; on a
completely fresh state the only write the failing call performs is setting
the `head_initialized` flag.) -/
theorem c7_calloc_overflow (n sz : Nat) (s : AState) (hinit : s.headInit = true) :
    ((n = 0 ∨ sz = 0) → osCalloc n sz s = (none, s))
    ∧ (n ≠ 0 → sz ≠ 0 →
        (calign (cmul sz n) < sz ∨ calign (cmul sz n) < n) →
        osCalloc n sz s = (none, s)) := by
  constructor
  · intro h
    simp [osCalloc, if_pos h]
  · intro hn hs hov
    have hcond : ¬ (n = 0 ∨ sz = 0) := by tauto
    simp [osCalloc, if_neg hcond, hinit, if_pos hov]

/-- Witness for C7: `zero_allocate(SIZE_MAX / 2, 4)` returns null and leaves
the state unchanged. -/
theorem c7_calloc_overflow_witness :
    (calign (cmul 4 9223372036854775807) < 4 ∨
      calign (cmul 4 9223372036854775807) < 9223372036854775807)
    ∧ osCalloc 9223372036854775807 4
        { blocks := [], brk := HEAPBASE, mapCtr := 0, headInit := true,
          prealloc := false, unmapLog := [] } =
      (none,
        { blocks := [], brk := HEAPBASE, mapCtr := 0, headInit := true,
          prealloc := false, unmapLog := [] }) :=
  ⟨by decide,
    (c7_calloc_overflow 9223372036854775807 4
      { blocks := [], brk := HEAPBASE, mapCtr := 0, headInit := true,
        prealloc := false, unmapLog := [] } rfl).2
      (by decide) (by decide) (by decide)⟩

/-! ## The reallocate grow-in-place path -/

/-- C6: In the reallocate extend path, when the block is the last heap
block (the list tail scanning backward past any trailing `Mapped` blocks),
the program break is extended by exactly `a - block.size`, the block grows
in place to size `a`, and the same pointer is returned. -/
theorem c6_extend_last_heap (s : AState) (p size i : Nat) (b : Block)
    (hsearch : searchBlockInList p s.blocks = some i)
    (hblk : s.blocks[i]? = some b)
    (hst : b.status = Status.alloc)
    (hlast : getLastOnHeapIdx s.blocks = some i)
    (hgrow : b.size < calign size)
    (hthresh : calign size < MMAP_THRESH) :
    osRealloc p size s =
      (some p,
        { s with brk := s.brk + (calign size - b.size),
                 blocks := s.blocks.set i { b with size := calign size } }) := by
  obtain ⟨b2, hblk2, haddr⟩ := search_some_spec p s.blocks i hsearch
  have hbb : b2 = b := by
    rw [hblk] at hblk2
    exact (Option.some.inj hblk2).symm
  rw [hbb] at haddr
  have hM := META_eq
  have hp : p ≠ 0 := by omega
  have hs0 : size ≠ 0 := by
    intro h
    subst h
    rw [calign_zero] at hgrow
    omega
  have hstf : ¬ b.status = Status.free := by rw [hst]; decide
  have hstm : ¬ b.status = Status.mapped := by rw [hst]; decide
  have hne : ¬ calign size = b.size := by omega
  have hnge : ¬ MMAP_THRESH ≤ calign size := by omega
  have hilen : i < s.blocks.length := by
    by_contra hge
    rw [List.getElem?_eq_none (by omega)] at hblk
    cases hblk
  have hdelta : csub (calign size) b.size = calign size - b.size :=
    csub_eq _ _ (le_of_lt hgrow) (calign_lt size)
  have hsum : cadd b.size (calign size - b.size) = calign size := by
    rw [cadd_eq _ _ (by have := calign_lt size; omega)]
    omega
  have hget : (s.blocks.set i
      { b with size := cadd b.size (csub (calign size) b.size) })[i]? =
      some { b with size := cadd b.size (csub (calign size) b.size) } := by
    rw [List.getElem?_set]
    simp [hilen]
  have hMT : MMAP_THRESH = 131072 := rfl
  have hsb : sbrkMove s.brk (calign size - b.size) = s.brk + (calign size - b.size) :=
    sbrkMove_small _ _ (by omega)
  simp only [osRealloc, if_neg hp, if_neg hs0, hsearch, hblk, if_neg hstf,
    if_neg hne, if_pos hgrow, extendRealloc, if_neg hstm, if_neg hnge, hlast,
    if_pos (rfl : i = i), expandLastBlock, hget, ite_true]
  rw [hdelta, hsum, hsb, haddr]

/-- Witness for C6: growing the single (hence last) heap block in place. -/
theorem c6_extend_last_heap_witness :
    osRealloc (HEAPBASE + META) 64
        { blocks := [{ addr := HEAPBASE, size := 32, status := Status.alloc }],
          brk := HEAPBASE + 64, mapCtr := 0, headInit := true,
          prealloc := true, unmapLog := [] } =
      (some (HEAPBASE + META),
        { blocks := [{ addr := HEAPBASE, size := 64, status := Status.alloc }],
          brk := HEAPBASE + 64 + 32, mapCtr := 0, headInit := true,
          prealloc := true, unmapLog := [] }) := by
  have h := c6_extend_last_heap
    { blocks := [{ addr := HEAPBASE, size := 32, status := Status.alloc }],
      brk := HEAPBASE + 64, mapCtr := 0, headInit := true,
      prealloc := true, unmapLog := [] }
    (HEAPBASE + META) 64 0 { addr := HEAPBASE, size := 32, status := Status.alloc }
    (by decide) (by decide) (by decide) (by decide) (by decide) (by decide)
  rw [h]
  decide

/-! ## The program break is not monotone: a wrapped request shrinks it -/

/-- C8: evaluation of the code at the failing input.  `os_malloc(2^64 - 8)`
is heap-dispatched, because `aligned_size + META_BLOCK_SIZE` wraps to 24,
which is below `MMAP_THRESHOLD`; the best-fit search fails and
`expand_last_block` computes the `size_t` difference
`(2^64 - 8) - 130848 = 2^64 - 130856`, which `sbrk` receives as the
negative `intptr_t` increment `-130856`: after three `os_malloc(32)` calls
the program break moves from `HEAPBASE + 131072` back down to
`HEAPBASE + 216`.  This refutes the claim that the break never decreases
and that every requested extension is a non-negative delta. -/
theorem c8_break_shrinks_on_wrapped_malloc :
    (run [Op.malloc 32, Op.malloc 32, Op.malloc 32] initState).brk =
        HEAPBASE + 131072
    ∧ (run [Op.malloc 32, Op.malloc 32, Op.malloc 32,
            Op.malloc (2 ^ 64 - 8)] initState).brk = HEAPBASE + 216
    ∧ (run [Op.malloc 32, Op.malloc 32, Op.malloc 32,
            Op.malloc (2 ^ 64 - 8)] initState).brk <
        (run [Op.malloc 32, Op.malloc 32, Op.malloc 32] initState).brk := by
  refine ⟨by decide, by decide, by decide⟩

/-! ## The no-adjacent-free invariant -/

theorem pairOK_of_left {x y : Block} (h : ¬ x.status = Status.free) : pairOK x y :=
  fun hc => h hc.1

theorem pairOK_of_right {x y : Block} (h : ¬ y.status = Status.free) : pairOK x y :=
  fun hc => h hc.2

theorem chain'_cons_mapped (c : Block) (pend : List Block)
    (hp : ∀ x ∈ pend, x.status = Status.mapped) : List.Chain' pairOK (c :: pend) := by
  induction pend generalizing c with
  | nil => exact List.chain'_singleton c
  | cons x xs ih =>
    rw [List.chain'_cons]
    constructor
    · refine pairOK_of_right ?_
      rw [hp x (by simp)]
      decide
    · exact ih x fun y hy => hp y (by simp [hy])

theorem coalesceGo_none_cons (b : Block) (rest : List Block) :
    coalesceGo none (b :: rest) =
      match b.status with
      | Status.free => coalesceGo (some (b, [])) rest
      | _ => b :: coalesceGo none rest := rfl

theorem coalesceGo_some_cons (c1 : Block) (pend : List Block) (b : Block)
    (rest : List Block) :
    coalesceGo (some (c1, pend)) (b :: rest) =
      match b.status with
      | Status.alloc => (c1 :: pend) ++ b :: coalesceGo none rest
      | Status.mapped => coalesceGo (some (c1, pend ++ [b])) rest
      | Status.free =>
          coalesceGo (some ({ c1 with size := cadd c1.size (cadd META b.size) }, pend)) rest :=
  rfl

theorem coalesceGo_chain :
    ∀ (l : List Block) (acc : Option (Block × List Block)),
      (∀ (c1 : Block) (pend : List Block), acc = some (c1, pend) →
        ∀ x ∈ pend, x.status = Status.mapped) →
      List.Chain' pairOK (coalesceGo acc l) := by
  intro l
  induction l with
  | nil =>
    intro acc hacc
    cases acc with
    | none => exact List.chain'_nil
    | some q =>
      obtain ⟨c1, pend⟩ := q
      exact chain'_cons_mapped c1 pend (hacc c1 pend rfl)
  | cons b rest ih =>
    intro acc hacc
    cases acc with
    | none =>
      rw [coalesceGo_none_cons]
      cases hst : b.status with
      | free =>
        exact ih (some (b, [])) (by
          intro c1 pend h x hx
          simp only [Option.some.injEq, Prod.mk.injEq] at h
          rw [← h.2] at hx
          simp at hx)
      | alloc =>
        rw [List.chain'_cons']
        refine ⟨fun y _ => pairOK_of_left (by rw [hst]; decide), ?_⟩
        exact ih none (by intro c1 pend h; cases h)
      | mapped =>
        rw [List.chain'_cons']
        refine ⟨fun y _ => pairOK_of_left (by rw [hst]; decide), ?_⟩
        exact ih none (by intro c1 pend h; cases h)
    | some q =>
      obtain ⟨c1, pend⟩ := q
      have hpend := hacc c1 pend rfl
      rw [coalesceGo_some_cons]
      cases hst : b.status with
      | alloc =>
        rw [List.chain'_append]
        refine ⟨chain'_cons_mapped c1 pend hpend, ?_, ?_⟩
        · rw [List.chain'_cons']
          refine ⟨fun y _ => pairOK_of_left (by rw [hst]; decide), ?_⟩
          exact ih none (by intro c2 pend2 h; cases h)
        · intro x _ y hy
          simp only [List.head?_cons, Option.mem_def, Option.some.injEq] at hy
          rw [← hy]
          exact pairOK_of_right (by rw [hst]; decide)
      | mapped =>
        exact ih (some (c1, pend ++ [b])) (by
          intro c2 pend2 h x hx
          simp only [Option.some.injEq, Prod.mk.injEq] at h
          rw [← h.2] at hx
          rcases List.mem_append.mp hx with hx1 | hx2
          · exact hpend x hx1
          · simp only [List.mem_singleton] at hx2
            rw [hx2]
            exact hst)
      | free =>
        exact ih (some ({ c1 with size := cadd c1.size (cadd META b.size) }, pend)) (by
          intro c2 pend2 h x hx
          simp only [Option.some.injEq, Prod.mk.injEq] at h
          rw [← h.2] at hx
          exact hpend x hx)

/-- After one pass of `coalesce_attempt`, no two list-adjacent blocks are
both free. -/
theorem coalesce_no_adjacent (bs : List Block) : NoAdjacentFree (coalesceAttempt bs) :=
  coalesceGo_chain bs none (by intro c1 pend h; cases h)

theorem chain'_set_nonfree (bs : List Block) (i : Nat) (b c : Block)
    (hi : bs[i]? = some b) (hc : ¬ c.status = Status.free)
    (h : NoAdjacentFree bs) : NoAdjacentFree (bs.set i c) := by
  have hilen : i < bs.length := by
    by_contra hge
    rw [List.getElem?_eq_none (by omega)] at hi
    cases hi
  have htake : (bs.take i).length = i := by rw [List.length_take]; omega
  have h' : List.Chain' pairOK (bs.take i ++ b :: bs.drop (i + 1)) := by
    rw [getElem?_decomp bs i b hi]
    exact h
  have hset : bs.set i c = bs.take i ++ c :: bs.drop (i + 1) := by
    calc bs.set i c = (bs.take i ++ b :: bs.drop (i + 1)).set i c := by
          rw [getElem?_decomp bs i b hi]
    _ = bs.take i ++ c :: bs.drop (i + 1) := set_cons_at_of _ _ _ _ i htake.symm
  unfold NoAdjacentFree
  rw [hset, List.chain'_append]
  rw [List.chain'_append] at h'
  obtain ⟨h1, h2, _⟩ := h'
  refine ⟨h1, ?_, ?_⟩
  · rw [List.chain'_cons'] at h2 ⊢
    exact ⟨fun y _ => pairOK_of_left hc, h2.2⟩
  · intro x _ y hy
    simp only [List.head?_cons, Option.mem_def, Option.some.injEq] at hy
    rw [← hy]
    exact pairOK_of_right hc

theorem chain'_append_single_nonfree (bs : List Block) (c : Block)
    (hc : ¬ c.status = Status.free) (h : NoAdjacentFree bs) :
    NoAdjacentFree (bs ++ [c]) := by
  unfold NoAdjacentFree at h ⊢
  rw [List.chain'_append]
  refine ⟨h, List.chain'_singleton c, ?_⟩
  intro x _ y hy
  simp only [List.head?_cons, Option.mem_def, Option.some.injEq] at hy
  rw [← hy]
  exact pairOK_of_right hc

theorem chain'_two_after (bs : List Block) (i : Nat) (b LA T : Block)
    (hi : bs[i]? = some b) (hbfree : b.status = Status.free)
    (hLA : ¬ LA.status = Status.free)
    (h : NoAdjacentFree bs) :
    NoAdjacentFree (bs.take i ++ LA :: T :: bs.drop (i + 1)) := by
  have h' : List.Chain' pairOK (bs.take i ++ b :: bs.drop (i + 1)) := by
    rw [getElem?_decomp bs i b hi]
    exact h
  rw [List.chain'_append] at h'
  obtain ⟨h1, h2, _⟩ := h'
  rw [List.chain'_cons'] at h2
  unfold NoAdjacentFree
  rw [List.chain'_append]
  refine ⟨h1, ?_, ?_⟩
  · rw [List.chain'_cons]
    refine ⟨pairOK_of_left hLA, ?_⟩
    rw [List.chain'_cons']
    refine ⟨?_, h2.2⟩
    intro y hy hcon
    exact (h2.1 y hy) ⟨hbfree, hcon.2⟩
  · intro x _ y hy
    simp only [List.head?_cons, Option.mem_def, Option.some.injEq] at hy
    rw [← hy]
    exact pairOK_of_right hLA

theorem findBestBlock_some_free (sz : Nat) (bs : List Block) (i : Nat)
    (h : findBestBlock sz bs = some i) :
    ∃ (b : Block), bs[i]? = some b ∧ b.status = Status.free := by
  unfold findBestBlock at h
  obtain ⟨q, hq, hfst⟩ := Option.map_eq_some'.mp h
  obtain ⟨j, v⟩ := q
  rcases (findBestGo_spec (calign sz) bs 0 none).2 j v hq with ⟨hacc, _⟩ | hfound
  · cases hacc
  · obtain ⟨k, b, hk, hj, _, hc, _, _⟩ := hfound
    have hik : i = k := by
      simp only at hfst
      omega
    subst hik
    exact ⟨b, hk, hc.1⟩

/-- Shared placement invariant: for any request size `X` and any state,
acquiring a heap block through `get_free_heap_block` and marking the chosen
block `STATUS_ALLOC` (the code both `os_malloc` and `os_calloc` run on
their heap paths) leaves no two list-adjacent blocks both free. -/
theorem heapPlace_no_adjacent (X : Nat) (s1 : AState) :
    NoAdjacentFree
      ((match getFreeHeapBlock X s1 with
        | (some i, s2) =>
          match s2.blocks[i]? with
          | some b =>
            ((some (b.addr + META) : Option Nat),
              { s2 with blocks := s2.blocks.set i { b with status := Status.alloc } })
          | none => ((none : Option Nat), s2)
        | (none, s2) => ((none : Option Nat), s2)).2.blocks) := by
  set P := preallocHeapAttempt s1 with hP
  set bs2 := coalesceAttempt P.blocks with hbs2
  have hchain : NoAdjacentFree bs2 := by
    rw [hbs2]
    exact coalesce_no_adjacent P.blocks
  cases hfind : findBestBlock (calign X) bs2 with
  | some i =>
    obtain ⟨b, hb, hbfree⟩ := findBestBlock_some_free (calign X) bs2 i hfind
    have hilen : i < bs2.length := by
      by_contra hge
      rw [List.getElem?_eq_none (by omega)] at hb
      cases hb
    have htake : (bs2.take i).length = i := by rw [List.length_take]; omega
    rcases split_cases bs2 i b (calign X) hb with hsp | hsp
    · have hg : getFreeHeapBlock X s1 = (some i, { P with blocks := bs2 }) := by
        unfold getFreeHeapBlock
        dsimp only
        rw [← hP, ← hbs2]
        rw [hfind]
        dsimp only
        rw [hsp]
      rw [hg]
      dsimp only
      rw [hb]
      dsimp only
      exact chain'_set_nonfree bs2 i b _ hb (by intro hcon; cases hcon) hchain
    · simp only [calign_idem] at hsp
      have hg : getFreeHeapBlock X s1 =
          (some i, { P with blocks := bs2.take i ++
            { b with size := calign X } ::
            ({ addr := b.addr + META + calign X,
               size := csub (csub b.size (calign X)) META,
               status := Status.free } : Block) :: bs2.drop (i + 1) }) := by
        unfold getFreeHeapBlock
        dsimp only
        rw [← hP, ← hbs2]
        rw [hfind]
        dsimp only
        rw [hsp]
      rw [hg]
      dsimp only
      have hLi : (bs2.take i ++
          { b with size := calign X } ::
          ({ addr := b.addr + META + calign X,
             size := csub (csub b.size (calign X)) META,
             status := Status.free } : Block) :: bs2.drop (i + 1))[i]? =
          some { b with size := calign X } := by
        rw [List.getElem?_append_right (by omega), htake, Nat.sub_self]
        rfl
      rw [hLi]
      dsimp only
      rw [set_cons_at_of (bs2.take i) _ _ _ i htake.symm]
      exact chain'_two_after bs2 i b _ _ hb hbfree (by intro hcon; cases hcon) hchain
  | none =>
    cases hlast : getLastOnHeapIdx bs2 with
    | some li =>
      cases hlb : bs2[li]? with
      | some lb =>
        by_cases hfree : lb.status = Status.free
        · have hlilen : li < bs2.length := by
            by_contra hge
            rw [List.getElem?_eq_none (by omega)] at hlb
            cases hlb
          have hg : getFreeHeapBlock X s1 =
              (some li,
                { P with brk := sbrkMove P.brk (csub (calign X) lb.size),
                         blocks := bs2.set li
                           { lb with size := cadd lb.size (csub (calign X) lb.size) } }) := by
            unfold getFreeHeapBlock expandLastBlock
            dsimp only
            rw [← hP, ← hbs2]
            rw [hfind]
            dsimp only
            rw [hlast]
            dsimp only
            rw [hlb]
            dsimp only
            rw [if_pos hfree]
          rw [hg]
          dsimp only
          have hget : (bs2.set li
              { lb with size := cadd lb.size (csub (calign X) lb.size) })[li]? =
              some { lb with size := cadd lb.size (csub (calign X) lb.size) } := by
            rw [List.getElem?_set]
            simp [hlilen]
          rw [hget]
          dsimp only
          rw [List.set_set]
          exact chain'_set_nonfree bs2 li lb _ hlb (by intro hcon; cases hcon) hchain
        · have hg : getFreeHeapBlock X s1 =
              (some bs2.length,
                { P with brk := sbrkMove P.brk (cadd META (calign X)),
                         blocks := bs2 ++
                           [{ addr := P.brk, size := calign X, status := Status.free }] }) := by
            unfold getFreeHeapBlock freshHeapBlock
            dsimp only
            rw [← hP, ← hbs2]
            rw [hfind]
            dsimp only
            rw [hlast]
            dsimp only
            rw [hlb]
            dsimp only
            rw [if_neg hfree]
          rw [hg]
          dsimp only
          rw [List.getElem?_concat_length]
          dsimp only
          rw [set_append_last]
          exact chain'_append_single_nonfree bs2 _ (by intro hcon; cases hcon) hchain
      | none =>
        have hg : getFreeHeapBlock X s1 =
            (some bs2.length,
              { P with brk := sbrkMove P.brk (cadd META (calign X)),
                       blocks := bs2 ++
                         [{ addr := P.brk, size := calign X, status := Status.free }] }) := by
          unfold getFreeHeapBlock freshHeapBlock
          dsimp only
          rw [← hP, ← hbs2]
          rw [hfind]
          dsimp only
          rw [hlast]
          dsimp only
          rw [hlb]
        rw [hg]
        dsimp only
        rw [List.getElem?_concat_length]
        dsimp only
        rw [set_append_last]
        exact chain'_append_single_nonfree bs2 _ (by intro hcon; cases hcon) hchain
    | none =>
      have hg : getFreeHeapBlock X s1 =
          (some bs2.length,
            { P with brk := sbrkMove P.brk (cadd META (calign X)),
                     blocks := bs2 ++
                       [{ addr := P.brk, size := calign X, status := Status.free }] }) := by
        unfold getFreeHeapBlock freshHeapBlock
        dsimp only
        rw [← hP, ← hbs2]
        rw [hfind]
        dsimp only
        rw [hlast]
      rw [hg]
      dsimp only
      rw [List.getElem?_concat_length]
      dsimp only
      rw [set_append_last]
      exact chain'_append_single_nonfree bs2 _ (by intro hcon; cases hcon) hchain

/-- C1 (amended): after an `allocate` or a `zero_allocate` whose request is
served from the program-break heap returns, no two list-adjacent heap
blocks are both `Free` (the coalesce pass runs eagerly before every heap
placement; the hypotheses of each conjunct are exactly the corresponding
entry point's heap-dispatch conditions). -/
theorem c1_no_adjacent_free_after_heap_serve (n : Nat) (s : AState) :
    (n ≠ 0 → cadd (calign n) META < MMAP_THRESH →
      NoAdjacentFree ((osMalloc n s).2.blocks))
    ∧ (∀ (nm sz : Nat), nm ≠ 0 → sz ≠ 0 →
        ¬ (calign (cmul sz nm) < sz ∨ calign (cmul sz nm) < nm) →
        toSigned (cadd (calign (cmul sz nm)) META) < (PAGESIZE : Int) →
        NoAdjacentFree ((osCalloc nm sz s).2.blocks)) := by
  constructor
  · intro hn hheap
    unfold osMalloc
    rw [if_neg hn]
    dsimp only
    rw [if_pos hheap]
    exact heapPlace_no_adjacent (calign n) _
  · intro nm sz hnm hsz hov hpage
    unfold osCalloc
    rw [if_neg (show ¬ (nm = 0 ∨ sz = 0) by tauto)]
    dsimp only
    rw [if_neg hov, if_pos hpage]
    exact heapPlace_no_adjacent (calign (cmul sz nm)) _

theorem noAdjacentFree_iff (bs : List Block) :
    NoAdjacentFree bs ↔ hasAdjFree bs = false := by
  induction bs with
  | nil => simp [NoAdjacentFree, hasAdjFree]
  | cons b1 rest ih =>
    cases rest with
    | nil => simp [NoAdjacentFree, hasAdjFree]
    | cons b2 rest2 =>
      rw [NoAdjacentFree, List.chain'_cons]
      rw [NoAdjacentFree] at ih
      simp only [hasAdjFree, Bool.or_eq_false_iff, Bool.and_eq_false_iff, pairOK]
      constructor
      · intro ⟨h1, h2⟩
        refine ⟨?_, ih.mp h2⟩
        by_cases hf1 : b1.status = Status.free
        · right
          simp only [decide_eq_false_iff_not]
          intro hf2
          exact h1 ⟨hf1, hf2⟩
        · left
          simp only [decide_eq_false_iff_not]
          exact hf1
      · intro ⟨h1, h2⟩
        refine ⟨?_, ih.mpr h2⟩
        intro ⟨hf1, hf2⟩
        rcases h1 with h1 | h1 <;> simp only [decide_eq_false_iff_not] at h1
        · exact h1 hf1
        · exact h1 hf2

/-- Counterexample to C1 as stated: after `malloc 32` three times, freeing
the first two payloads leaves the two corresponding heap blocks, which are
list-adjacent, both `Free` — `os_free` does not coalesce. -/
theorem c1_counterexample_free_leaves_adjacent :
    ¬ NoAdjacentFree
        (run [Op.malloc 32, Op.malloc 32, Op.malloc 32,
              Op.free (HEAPBASE + META), Op.free (HEAPBASE + 96)] initState).blocks := by
  rw [noAdjacentFree_iff]
  decide

/-- Witness for the amended C1 at a concrete heap-served allocate and a
concrete heap-served zero-allocate. -/
theorem c1_no_adjacent_free_after_heap_serve_witness :
    ((32 : Nat) ≠ 0 ∧ cadd (calign 32) META < MMAP_THRESH ∧
      NoAdjacentFree ((osMalloc 32 initState).2.blocks))
    ∧ ((1 : Nat) ≠ 0 ∧ (32 : Nat) ≠ 0 ∧
        ¬ (calign (cmul 32 1) < 32 ∨ calign (cmul 32 1) < 1) ∧
        toSigned (cadd (calign (cmul 32 1)) META) < (PAGESIZE : Int) ∧
        NoAdjacentFree ((osCalloc 1 32 initState).2.blocks)) :=
  ⟨⟨by decide, by decide,
      (c1_no_adjacent_free_after_heap_serve 32 initState).1 (by decide) (by decide)⟩,
   ⟨by decide, by decide, by decide, by decide,
      (c1_no_adjacent_free_after_heap_serve 32 initState).2 1 32
        (by decide) (by decide) (by decide) (by decide)⟩⟩

end MemAlloc
